import Mathlib

/-!
Verification of the covid-19-icu-risk-analysis pipeline (src/analysis.py,
src/main.py).

The pandas pipeline is shallowly embedded: a data frame is a list of column
names together with positional rows of cell values.  Python scalar values are
modelled by the type Value below; a Python float produced by parsing a decimal
string is represented exactly as a mantissa and a power-of-ten exponent
(Value.flt m e denotes m / 10 ^ e), so all comparisons are integer
computations.  Python equality on scalars (where 1 == 1.0 holds and NaN is
never equal to anything) is the function veq; the ordering used by pandas when
it sorts group keys is vle.
-/

/-- Scalar cell value of a pandas data frame: Python int, str,
float (flt m e denotes m / 10 ^ e, the exact value of a parsed decimal
string), or missing (NaN/None). -/
inductive Value where
  | int : Int → Value
  | str : String → Value
  | flt : Int → Nat → Value
  | null : Value
deriving DecidableEq

/-- Rank used to classify values: missing, numeric, string. -/
def vrank : Value → Nat
  | .null => 0
  | .int _ => 1
  | .flt _ _ => 1
  | .str _ => 2

/-- Test for a numeric value (Python int or float). -/
def isNum : Value → Bool
  | .int _ => true
  | .flt _ _ => true
  | _ => false

/-- Mantissa of a numeric value. -/
def fnum : Value → Int
  | .int m => m
  | .flt m _ => m
  | _ => 0

/-- Power-of-ten exponent of a numeric value. -/
def fexp : Value → Nat
  | .flt _ e => e
  | _ => 0

/-- Equality of the numeric values denoted by two numerics, by
cross-multiplication with the powers of ten. -/
def crossEq (a b : Value) : Bool :=
  decide (fnum a * (10 : Int) ^ fexp b = fnum b * (10 : Int) ^ fexp a)

/-- Comparison of the numeric values denoted by two numerics, by
cross-multiplication with the powers of ten. -/
def crossLe (a b : Value) : Bool :=
  decide (fnum a * (10 : Int) ^ fexp b ≤ fnum b * (10 : Int) ^ fexp a)

/-- Python equality on scalar values: numerics compare by value
(1 == 1.0), strings compare by content, NaN is equal to nothing
(not even itself), and values of different kinds are unequal. -/
def veq (a b : Value) : Bool :=
  if isNum a && isNum b then crossEq a b
  else
    match a, b with
    | .str s, .str t => decide (s = t)
    | _, _ => false

/-- Lexicographic comparison of strings by code point, as Python compares
strings. -/
def charListLe : List Char → List Char → Bool
  | [], _ => true
  | _ :: _, [] => false
  | a :: as, b :: bs =>
      if a.toNat < b.toNat then true
      else if a.toNat = b.toNat then charListLe as bs
      else false

/-- Total comparison on scalar values, used to model the ascending order in
which pandas lists sorted group keys: missing values sort first, then
numerics by value, then strings lexicographically. -/
def vle (a b : Value) : Bool :=
  decide (vrank a < vrank b) ||
  (decide (vrank a = vrank b) &&
    (if isNum a && isNum b then crossLe a b
     else
      match a, b with
      | .str s, .str t => charListLe s.data t.data
      | _, _ => true))

/-- Maximum of a list of values as pandas computes a group max: missing
values are skipped because they sort below everything; the maximum of an
empty group is missing. -/
def vmax : List Value → Value
  | [] => .null
  | v :: t => t.foldl (fun a b => if vle a b then b else a) v

/-- First value of a list as pandas groupby agg first computes it: the
first non-missing entry, or missing when there is none. -/
def aggFirst (l : List Value) : Value :=
  (l.filter (fun v => !decide (v = Value.null))).headD .null

/-- Deduplication keeping first occurrences, with equality veq; seen
accumulates the representatives already emitted. -/
def dedupByAux (seen : List Value) : List Value → List Value
  | [] => []
  | v :: t =>
      if seen.any (fun u => veq u v) then dedupByAux seen t
      else v :: dedupByAux (v :: seen) t

/-- Distinct values of a list under Python equality, first occurrences
kept, as pandas collects group keys before sorting them. -/
def dedupBy (l : List Value) : List Value := dedupByAux [] l

/-- Insertion of a value into a sorted list, preserving sortedness with
respect to vle. -/
def insertSorted (v : Value) : List Value → List Value
  | [] => [v]
  | u :: t => if vle v u then v :: u :: t else u :: insertSorted v t

/-- Insertion sort with respect to vle; models the ascending key order
produced by pandas groupby and crosstab. -/
def sortValues : List Value → List Value
  | [] => []
  | v :: t => insertSorted v (sortValues t)

-- Transitivity of the cross-multiplied comparisons.

theorem crossEq_trans {a b c : Value} (h1 : crossEq a b = true)
    (h2 : crossEq b c = true) : crossEq a c = true := by
  simp only [crossEq, decide_eq_true_eq] at h1 h2 ⊢
  have p2 : (0 : Int) < 10 ^ fexp b := pow_pos (by norm_num) _
  have key : fnum a * 10 ^ fexp c * 10 ^ fexp b
      = fnum c * 10 ^ fexp a * 10 ^ fexp b := by
    calc fnum a * 10 ^ fexp c * 10 ^ fexp b
        = fnum a * 10 ^ fexp b * 10 ^ fexp c := by ring
      _ = fnum b * 10 ^ fexp a * 10 ^ fexp c := by rw [h1]
      _ = fnum b * 10 ^ fexp c * 10 ^ fexp a := by ring
      _ = fnum c * 10 ^ fexp b * 10 ^ fexp a := by rw [h2]
      _ = fnum c * 10 ^ fexp a * 10 ^ fexp b := by ring
  exact mul_right_cancel₀ (ne_of_gt p2) key

theorem crossEq_symm (a b : Value) : crossEq a b = crossEq b a := by
  simp only [crossEq, decide_eq_decide]
  constructor <;> (intro h; omega)

theorem crossLe_trans {a b c : Value} (h1 : crossLe a b = true)
    (h2 : crossLe b c = true) : crossLe a c = true := by
  simp only [crossLe, decide_eq_true_eq] at h1 h2 ⊢
  have p2 : (0 : Int) < 10 ^ fexp b := pow_pos (by norm_num) _
  have h1' := mul_le_mul_of_nonneg_right h1
    (le_of_lt (pow_pos (by norm_num : (0:Int) < 10) (fexp c)))
  have h2' := mul_le_mul_of_nonneg_right h2
    (le_of_lt (pow_pos (by norm_num : (0:Int) < 10) (fexp a)))
  have key : fnum a * 10 ^ fexp c * 10 ^ fexp b
      ≤ fnum c * 10 ^ fexp a * 10 ^ fexp b := by
    calc fnum a * 10 ^ fexp c * 10 ^ fexp b
        = fnum a * 10 ^ fexp b * 10 ^ fexp c := by ring
      _ ≤ fnum b * 10 ^ fexp a * 10 ^ fexp c := h1'
      _ = fnum b * 10 ^ fexp c * 10 ^ fexp a := by ring
      _ ≤ fnum c * 10 ^ fexp b * 10 ^ fexp a := h2'
      _ = fnum c * 10 ^ fexp a * 10 ^ fexp b := by ring
  exact le_of_mul_le_mul_right key p2

theorem crossLe_total (a b : Value) : crossLe a b = true ∨ crossLe b a = true := by
  simp only [crossLe, decide_eq_true_eq]
  exact Int.le_total _ _

theorem crossEq_crossLe {a b : Value} (h : crossEq a b = true) :
    crossLe a b = true := by
  simp only [crossEq, decide_eq_true_eq] at h
  simp only [crossLe, decide_eq_true_eq, h, le_refl]

-- Basic properties of charListLe.

theorem charListLe_total : ∀ (l1 l2 : List Char),
    charListLe l1 l2 = true ∨ charListLe l2 l1 = true := by
  intro l1
  induction l1 with
  | nil => intro l2; left; rfl
  | cons a as ih =>
    intro l2
    cases l2 with
    | nil => right; rfl
    | cons b bs =>
      simp only [charListLe]
      rcases Nat.lt_trichotomy a.toNat b.toNat with h | h | h
      · left; simp [h]
      · rcases ih bs with h2 | h2
        · left; simp [h, h2]
        · right; simp [h.symm, h2]
      · right; simp [h]

theorem charListLe_trans : ∀ (l1 l2 l3 : List Char),
    charListLe l1 l2 = true → charListLe l2 l3 = true →
    charListLe l1 l3 = true := by
  intro l1
  induction l1 with
  | nil => intro l2 l3 _ _; rfl
  | cons a as ih =>
    intro l2 l3 h1 h2
    cases l2 with
    | nil => simp [charListLe] at h1
    | cons b bs =>
      cases l3 with
      | nil => simp [charListLe] at h2
      | cons c cs =>
        simp only [charListLe] at h1 h2 ⊢
        split_ifs at h1 h2 ⊢ <;> first | rfl | omega | exact ih bs cs h1 h2

-- Basic properties of veq and vle.

theorem veq_symm (a b : Value) : veq a b = veq b a := by
  cases a <;> cases b <;>
    simp [veq, isNum, crossEq_symm, eq_comm]

theorem veq_trans {a b c : Value} (h1 : veq a b = true) (h2 : veq b c = true) :
    veq a c = true := by
  cases a <;> cases b <;> cases c <;>
    simp_all [veq, isNum] <;>
    exact crossEq_trans h1 h2

theorem vle_total (a b : Value) : vle a b = true ∨ vle b a = true := by
  cases a <;> cases b <;>
    simp [vle, vrank, isNum] <;>
    first
      | exact crossLe_total _ _
      | exact charListLe_total _ _

theorem vle_trans {a b c : Value} (h1 : vle a b = true) (h2 : vle b c = true) :
    vle a c = true := by
  cases a <;> cases b <;> cases c <;>
    simp_all [vle, vrank, isNum] <;>
    first
      | exact crossLe_trans h1 h2
      | exact charListLe_trans _ _ _ h1 h2

/-!
The data frame model.  A data frame is a list of column names together with
rows of cell values; the cell of row r in column c sits at the position of
c in the column list.
-/

/-- Tabular structure: ordered column names and positional rows. -/
structure DataFrame where
  cols : List String
  rows : List (List Value)
deriving DecidableEq

/-- Well-formedness of a data frame as pandas guarantees it: column labels
are pairwise distinct and every row has one cell per column. -/
def DataFrame.Wf (df : DataFrame) : Prop :=
  df.cols.Nodup ∧ ∀ r ∈ df.rows, r.length = df.cols.length

/-- Cell of a row in a named column: the cell at the position of the first
occurrence of the name; missing when the column or the cell does not
exist. -/
def getCellD (cols : List String) (r : List Value) (c : String) : Value :=
  match cols with
  | [] => .null
  | c0 :: cols2 =>
      if c0 = c then r.headD .null
      else getCellD cols2 (r.drop 1) c

/-- Column of a data frame as the list of its cells, one per row. -/
def DataFrame.colD (df : DataFrame) (c : String) : List Value :=
  df.rows.map (fun r => getCellD df.cols r c)

/-- Explicit independent copy, as df.copy() makes one before the in-place
operations of preprocess_data; the copied value is equal to the original. -/
def DataFrame.copy (df : DataFrame) : DataFrame := ⟨df.cols, df.rows⟩

/-- Removal of every column whose name fails the keep predicate, as
df.drop(columns=...) removes a computed list of columns. -/
def filterCols (keep : String → Bool) (df : DataFrame) : DataFrame :=
  ⟨df.cols.filter keep,
   df.rows.map (fun r =>
     ((df.cols.zip r).filter (fun p => keep p.1)).map (fun p => p.2))⟩

/-- Replacement of the cell at the position of the first occurrence of a
column name. -/
def setRowAt (cols : List String) (r : List Value) (c : String) (x : Value) :
    List Value :=
  match cols with
  | [] => r
  | c0 :: cols2 =>
      if c0 = c then x :: r.drop 1
      else r.headD .null :: setRowAt cols2 (r.drop 1) c x

/-- Column assignment df[c] = series, where the series value of each row is
computed from that row: an existing column is overwritten in place, a new
column is appended on the right. -/
def setColByRow (df : DataFrame) (c : String)
    (f : List String → List Value → Value) : DataFrame :=
  if c ∈ df.cols then
    ⟨df.cols, df.rows.map (fun r => setRowAt df.cols r c (f df.cols r))⟩
  else
    ⟨df.cols ++ [c], df.rows.map (fun r => r ++ [f df.cols r])⟩

/-!
Embedding of preprocess_data (src/analysis.py lines 45-68).
-/

/-- Python str.endswith on column names. -/
def pyEndsWith (s suf : String) : Bool :=
  decide (s.data.drop (s.data.length - suf.data.length) = suf.data)

/-- Reserved statistical suffixes removed by preprocess_data. -/
def remove_patterns : List String := ["_DIFF", "_MIN", "_MAX", "_MEDIAN"]

/-- Keep predicate of the drop step: a column stays when its name ends in
none of the four reserved suffixes. -/
def keepCol (c : String) : Bool :=
  !(remove_patterns.any (fun p => pyEndsWith c p))

/-- Decimal digits of a Python int, as str(int) renders it. -/
def intRepr (m : Int) : List Char :=
  match m with
  | .ofNat n => Nat.toDigits 10 n
  | .negSucc n => '-' :: Nat.toDigits 10 (n + 1)

/-- Decimal rendering of the float m / 10 ^ e, with the trailing fractional
zeros dropped and at least one integer and one fractional digit, as
str(float) renders a float whose value is a finite decimal. -/
def fltRepr (m : Int) (e : Nat) : List Char :=
  let sign : List Char := if m < 0 then ['-'] else []
  let ds0 := Nat.toDigits 10 m.natAbs
  let ds := if ds0.length ≤ e then List.replicate (e + 1 - ds0.length) '0' ++ ds0 else ds0
  let ip := ds.take (ds.length - e)
  let fp := ((ds.drop (ds.length - e)).reverse.dropWhile (fun c => decide (c = '0'))).reverse
  sign ++ ip ++ '.' :: (if fp.isEmpty then ['0'] else fp)

/-- Python str() of a cell value, as the age lambda applies str(x) to the
cell before the regex substitution; str of NaN is the text nan. -/
def pyStr : Value → String
  | .int m => String.mk (intRepr m)
  | .str s => s
  | .flt m e => String.mk (fltRepr m e)
  | .null => "nan"

/-- Removal of every character other than a decimal digit or the decimal
point, as re.sub applies the pattern [^\d.] with empty replacement. -/
def stripNonDigits (s : String) : String :=
  String.mk (s.data.filter (fun c => c.isDigit || decide (c = '.')))

/-- Natural number denoted by a list of decimal digits. -/
def digitsToNat (l : List Char) : Nat :=
  l.foldl (fun acc c => 10 * acc + (c.toNat - 48)) 0

/-- Python float() applied to a string of digits and dots: defined exactly
when the string holds at least one digit and at most one dot, giving the
denoted decimal value. -/
def parseStripped (s : String) : Option Value :=
  let ds := s.data
  if ds.any Char.isDigit && decide (ds.countP (fun c => decide (c = '.')) ≤ 1)
      && ds.all (fun c => c.isDigit || decide (c = '.')) then
    let ip := ds.takeWhile (fun c => !decide (c = '.'))
    let fp := (ds.dropWhile (fun c => !decide (c = '.'))).drop 1
    some (Value.flt ((digitsToNat (ip ++ fp) : Nat) : Int) fp.length)
  else none

/-- Mapping of the AGE_ABOVE65 indicator through the dict
with 1 bound to +65 and 0 bound to <65; Python dict lookup equates 1 with
1.0, and any value matching no key (NaN included) maps to missing. -/
def age_groupMap (v : Value) : Value :=
  if veq v (.int 1) then .str "+65"
  else if veq v (.int 0) then .str "<65"
  else .null

/-- Age value derived from one AGE_PERCENTIL cell: float() of the stripped
str() of the value; a none result means the lambda raises. -/
def ageOfValue (v : Value) : Option Value :=
  parseStripped (stripNonDigits (pyStr v))

/-- Age value of one row, from its AGE_PERCENTIL cell. -/
def ageOfRow (cols : List String) (r : List Value) : Option Value :=
  ageOfValue (getCellD cols r "AGE_PERCENTIL")

/-- Drop step of preprocess_data: copy the frame and remove every column
whose name ends in a reserved statistical suffix. -/
def dropStats (df : DataFrame) : DataFrame := filterCols keepCol df.copy

/-- Derivation step df[age_group] = df[AGE_ABOVE65].map(...). -/
def addAgeGroup (df : DataFrame) : DataFrame :=
  setColByRow df "age_group"
    (fun cols r => age_groupMap (getCellD cols r "AGE_ABOVE65"))

/-- Derivation step df[age] = df[AGE_PERCENTIL].apply(...). -/
def addAge (df : DataFrame) : DataFrame :=
  setColByRow df "age" (fun cols r => (ageOfRow cols r).getD .null)

/-- Embedding of preprocess_data: copy, drop the reserved statistical
columns, derive age_group from AGE_ABOVE65 and age from AGE_PERCENTIL.
The result is none when the function raises: a required source column is
absent, or float() fails on some stripped AGE_PERCENTIL value. -/
def preprocess_data (df : DataFrame) : Option DataFrame :=
  let d1 := dropStats df
  if "AGE_ABOVE65" ∈ d1.cols then
    let d2 := addAgeGroup d1
    if "AGE_PERCENTIL" ∈ d2.cols then
      if d2.rows.all (fun r => (ageOfRow d2.cols r).isSome) then
        some (addAge d2)
      else none
    else none
  else none

/-!
Embedding of aggregate_patient_level (src/analysis.py lines 75-88).
-/

/-- Columns read by the groupby aggregation. -/
def aggRequired : List String :=
  ["PATIENT_VISIT_IDENTIFIER", "ICU", "age_group", "age"]

/-- Rows of one patient group: the rows whose identifier equals the key
under Python equality. -/
def groupRows (df : DataFrame) (k : Value) : List (List Value) :=
  df.rows.filter
    (fun r => veq (getCellD df.cols r "PATIENT_VISIT_IDENTIFIER") k)

/-- Group keys of the aggregation: the distinct non-missing identifier
values, listed in ascending order, as pandas groupby with default sorting
forms them (rows with a missing key are dropped). -/
def patientKeys (df : DataFrame) : List Value :=
  sortValues (dedupBy ((df.colD "PATIENT_VISIT_IDENTIFIER").filter
    (fun v => !decide (v = Value.null))))

/-- Aggregated output row of one patient: identifier, max of ICU, first
age_group, first age. -/
def aggRow (df : DataFrame) (k : Value) : List Value :=
  let g := groupRows df k
  [k,
   vmax (g.map (fun r => getCellD df.cols r "ICU")),
   aggFirst (g.map (fun r => getCellD df.cols r "age_group")),
   aggFirst (g.map (fun r => getCellD df.cols r "age"))]

/-- Embedding of aggregate_patient_level: group by the patient identifier,
aggregate ICU by max and age_group and age by first, then reset_index.
The result is none when a required column is absent (KeyError). -/
def aggregate_patient_level (df : DataFrame) : Option DataFrame :=
  if aggRequired.all (fun c => decide (c ∈ df.cols)) then
    some ⟨aggRequired, (patientKeys df).map (aggRow df)⟩
  else none

/-!
Embedding of plot_dashboard (src/analysis.py lines 97-207).  Only the data
computations are modelled; rendering returns the computed panel data.
-/

/-- Jointly non-missing pairs of two aligned columns, as pd.crosstab drops
a pair when either side is missing. -/
def nonNullPairs (rv cv : List Value) : List (Value × Value) :=
  (rv.zip cv).filter
    (fun p => !decide (p.1 = Value.null) && !decide (p.2 = Value.null))

/-- Column labels of a crosstab: distinct second components in ascending
order. -/
def crosstabColLabels (rv cv : List Value) : List Value :=
  sortValues (dedupBy ((nonNullPairs rv cv).map (fun p => p.2)))

/-- Row labels of a crosstab: distinct first components in ascending
order. -/
def crosstabRowLabels (rv cv : List Value) : List Value :=
  sortValues (dedupBy ((nonNullPairs rv cv).map (fun p => p.1)))

/-- Indexing a crosstab at a column label, as freq[0] or freq[1] does: the
count vector of that label when some column label equals it under Python
equality, and a KeyError otherwise. -/
def crosstabColumn (rv cv : List Value) (c : Value) : Except String (List Nat) :=
  match (crosstabColLabels rv cv).find? (fun u => veq u c) with
  | some u => .ok ((crosstabRowLabels rv cv).map (fun rl =>
      ((nonNullPairs rv cv).filter (fun p => veq p.1 rl && veq p.2 u)).length))
  | none => .error "KeyError"

/-- Sum of two scaled decimals m / 10 ^ e, kept as mantissa and exponent. -/
def addScaled (a b : Int × Nat) : Int × Nat :=
  (a.1 * (10 : Int) ^ b.2 + b.1 * (10 : Int) ^ a.2, a.2 + b.2)

/-- Mean ICU value per time window, as groupby WINDOW mean computes it:
sorted distinct non-missing window keys, and for each the exact mean of
the non-missing ICU values encoded as (mantissa, scale exponent, count),
denoting mantissa / (10 ^ scale * count). -/
def meanICUByWindow (df : DataFrame) : List (Value × (Int × Nat × Nat)) :=
  let keys := sortValues (dedupBy ((df.colD "WINDOW").filter
    (fun v => !decide (v = Value.null))))
  keys.map (fun k =>
    let g := (df.rows.filter (fun r => veq (getCellD df.cols r "WINDOW") k)).map
      (fun r => getCellD df.cols r "ICU")
    let nn := g.filter (fun v => !decide (v = Value.null))
    let s := nn.foldl (fun acc v => addScaled acc (fnum v, fexp v)) (0, 0)
    (k, (s.1, s.2, nn.length)))

/-- Data content of the four-panel figure built by plot_dashboard. -/
structure Figure where
  icuNoByAgeGroup : List Nat
  icuYesByAgeGroup : List Nat
  icuYesByAge : List Nat
  icuRateByWindow : List (Value × (Int × Nat × Nat))
  icuYesByWindow : List Nat
deriving DecidableEq

/-- Embedding of plot_dashboard: aggregate to patient level, then build the
four panels in source order; the first failing lookup raises, so an error
result means the dashboard is never shown. -/
def plot_dashboard (df : DataFrame) : Except String Figure :=
  match aggregate_patient_level df with
  | none => .error "KeyError"
  | some patient_df =>
    match crosstabColumn (patient_df.colD "age_group") (patient_df.colD "ICU")
        (.int 0) with
    | .error e => .error e
    | .ok p1no =>
      match crosstabColumn (patient_df.colD "age_group")
          (patient_df.colD "ICU") (.int 1) with
      | .error e => .error e
      | .ok p1yes =>
        match crosstabColumn (patient_df.colD "age") (patient_df.colD "ICU")
            (.int 1) with
        | .error e => .error e
        | .ok p2yes =>
          if "WINDOW" ∈ df.cols then
            match crosstabColumn (df.colD "WINDOW") (df.colD "ICU")
                (.int 1) with
            | .error e => .error e
            | .ok p4yes =>
              .ok ⟨p1no, p1yes, p2yes, meanICUByWindow df, p4yes⟩
          else .error "KeyError"

/-!
Embedding of load_data (src/analysis.py lines 26-38).  The network and the
spreadsheet parser are an oracle environment; the try/except structure of
the function is modelled exactly.
-/

/-- Outcome of one HTTP GET that returned: status flag and body bytes. -/
structure HttpResponse where
  statusOk : Bool
  content : List Nat

/-- Oracle for the effectful calls: requests.get with a verify flag, and
pd.read_excel on the downloaded bytes. -/
structure NetEnv where
  get : Bool → Except String HttpResponse
  read_excel : List Nat → Except String DataFrame

/-- One attempt of the body of load_data: GET, raise_for_status, parse; any
of the three failures raises out of the attempt. -/
def attemptLoad (env : NetEnv) (verify : Bool) : Except String DataFrame := do
  let resp ← env.get verify
  if resp.statusOk then env.read_excel resp.content
  else Except.error "HTTPError"

/-- Observable outcome of load_data: the returned or raised value, the
verify flag of each HTTP request in order, and whether the insecure-request
warning suppression was toggled. -/
structure LoadOutcome where
  result : Except String DataFrame
  attempts : List Bool
  warningsDisabled : Bool

/-- Embedding of load_data: one verified attempt; on any failure, disable
insecure-request warnings and retry exactly once without certificate
verification, propagating the failure of that second attempt. -/
def load_data (env : NetEnv) : LoadOutcome :=
  match attemptLoad env true with
  | .ok df => ⟨.ok df, [true], false⟩
  | .error _ => ⟨attemptLoad env false, [true, false], true⟩

-- Remaining properties of the value order and of vmax.

theorem veq_refl {v : Value} (h : v ≠ .null) : veq v v = true := by
  cases v <;> simp_all [veq, isNum, crossEq]

theorem foldlMax_mem (t : List Value) : ∀ a : Value,
    t.foldl (fun x y => if vle x y then y else x) a ∈ a :: t := by
  induction t with
  | nil => intro a; simp
  | cons b t ih =>
    intro a
    simp only [List.foldl_cons]
    by_cases hc : vle a b = true
    · rw [if_pos hc]
      exact List.mem_cons_of_mem a (ih b)
    · rw [if_neg hc]
      rcases List.mem_cons.1 (ih a) with h | h
      · rw [h]; exact List.mem_cons_self a _
      · exact List.mem_cons_of_mem a (List.mem_cons_of_mem b h)

theorem vmax_mem {l : List Value} (h : l ≠ []) : vmax l ∈ l := by
  cases l with
  | nil => exact absurd rfl h
  | cons a t => exact foldlMax_mem t a

theorem foldlMax_binary (t : List Value) : ∀ a : Value,
    (a = .int 0 ∨ a = .int 1) → (∀ v ∈ t, v = .int 0 ∨ v = .int 1) →
    (t.foldl (fun x y => if vle x y then y else x) a = .int 1 ↔
      (a = .int 1 ∨ .int 1 ∈ t)) := by
  induction t with
  | nil => intro a _ _; simp
  | cons b t ih =>
    intro a ha hall
    have hb := hall b (List.mem_cons_self _ _)
    have hall2 : ∀ v ∈ t, v = .int 0 ∨ v = .int 1 :=
      fun v hv => hall v (List.mem_cons_of_mem _ hv)
    simp only [List.foldl_cons]
    rcases ha with rfl | rfl <;> rcases hb with rfl | rfl
    · rw [if_pos (by decide)]
      rw [ih _ (Or.inl rfl) hall2]
      simp [List.mem_cons]
    · rw [if_pos (by decide)]
      rw [ih _ (Or.inr rfl) hall2]
      simp [List.mem_cons]
    · rw [if_neg (by decide)]
      rw [ih _ (Or.inr rfl) hall2]
      simp [List.mem_cons]
    · rw [if_pos (by decide)]
      rw [ih _ (Or.inr rfl) hall2]
      simp [List.mem_cons]

theorem vmax_binary {l : List Value} (hne : l ≠ [])
    (hall : ∀ v ∈ l, v = .int 0 ∨ v = .int 1) :
    (vmax l = .int 1 ↔ .int 1 ∈ l) := by
  cases l with
  | nil => exact absurd rfl hne
  | cons a t =>
    have := foldlMax_binary t a (hall a (List.mem_cons_self _ _))
      (fun v hv => hall v (List.mem_cons_of_mem _ hv))
    rw [vmax, this]
    simp [List.mem_cons, eq_comm]

-- Properties of dedupBy.

theorem mem_dedupByAux : ∀ (l seen : List Value) (u : Value),
    u ∈ dedupByAux seen l → u ∈ l := by
  intro l
  induction l with
  | nil => intro seen u h; simp [dedupByAux] at h
  | cons v t ih =>
    intro seen u h
    simp only [dedupByAux] at h
    by_cases hc : (seen.any fun w => veq w v) = true
    · rw [if_pos hc] at h
      exact List.mem_cons_of_mem v (ih seen u h)
    · rw [if_neg hc] at h
      rcases List.mem_cons.1 h with h1 | h1
      · rw [h1]; exact List.mem_cons_self v t
      · exact List.mem_cons_of_mem v (ih _ u h1)

theorem dedupByAux_cover : ∀ (l seen : List Value) (v : Value), v ∈ l → v ≠ .null →
    (∀ s ∈ seen, veq s v = false) → ∃ u ∈ dedupByAux seen l, veq u v = true := by
  intro l
  induction l with
  | nil => intro seen v hv; simp at hv
  | cons w t ih =>
    intro seen v hv hnn hseen
    simp only [dedupByAux]
    by_cases hc : (seen.any fun u => veq u w) = true
    · rw [if_pos hc]
      rcases List.mem_cons.1 hv with rfl | h1
      · rcases List.any_eq_true.1 hc with ⟨s, hs, hsv⟩
        rw [hseen s hs] at hsv
        exact absurd hsv (by simp)
      · exact ih seen v h1 hnn hseen
    · rw [if_neg hc]
      by_cases hwv : veq w v = true
      · exact ⟨w, List.mem_cons_self _ _, hwv⟩
      · rcases List.mem_cons.1 hv with rfl | h1
        · exact absurd (veq_refl hnn) hwv
        · have hseen2 : ∀ s ∈ w :: seen, veq s v = false := by
            intro s hs
            rcases List.mem_cons.1 hs with rfl | hs2
            · exact Bool.not_eq_true _ ▸ hwv
            · exact hseen s hs2
          rcases ih (w :: seen) v h1 hnn hseen2 with ⟨u, hu, huv⟩
          exact ⟨u, List.mem_cons_of_mem w hu, huv⟩

theorem dedupByAux_distinct : ∀ (l seen : List Value),
    (∀ u ∈ dedupByAux seen l, ∀ s ∈ seen, veq s u = false) ∧
    List.Pairwise (fun a b => veq a b = false) (dedupByAux seen l) := by
  intro l
  induction l with
  | nil => intro seen; exact ⟨by simp [dedupByAux], by simp [dedupByAux]⟩
  | cons v t ih =>
    intro seen
    simp only [dedupByAux]
    by_cases hc : (seen.any fun u => veq u v) = true
    · rw [if_pos hc]; exact ih seen
    · rw [if_neg hc]
      obtain ⟨h1, h2⟩ := ih (v :: seen)
      constructor
      · intro u hu s hs
        rcases List.mem_cons.1 hu with rfl | hu2
        · simp only [List.any_eq_true, not_exists, not_and] at hc
          exact Bool.not_eq_true _ ▸ (hc s hs)
        · exact h1 u hu2 s (List.mem_cons_of_mem v hs)
      · refine List.Pairwise.cons ?_ h2
        intro b hb
        exact h1 b hb v (List.mem_cons_self _ _)

theorem mem_dedupBy {l : List Value} {u : Value} (h : u ∈ dedupBy l) : u ∈ l :=
  mem_dedupByAux l [] u h

theorem dedupBy_cover {l : List Value} {v : Value} (hv : v ∈ l) (hnn : v ≠ .null) :
    ∃ u ∈ dedupBy l, veq u v = true :=
  dedupByAux_cover l [] v hv hnn (by simp)

theorem dedupBy_distinct (l : List Value) :
    List.Pairwise (fun a b => veq a b = false) (dedupBy l) :=
  (dedupByAux_distinct l []).2

theorem countP_veq_one : ∀ (d : List Value),
    List.Pairwise (fun a b => veq a b = false) d →
    ∀ (v u0 : Value), u0 ∈ d → veq u0 v = true →
    d.countP (fun u => veq u v) = 1 := by
  intro d
  induction d with
  | nil => intro _ v u0 h; simp at h
  | cons w t ih =>
    intro hpw v u0 hu0 hveq
    rcases List.pairwise_cons.1 hpw with ⟨hw, ht⟩
    by_cases hwv : veq w v = true
    · have hzero : t.countP (fun u => veq u v) = 0 := by
        rw [List.countP_eq_zero]
        intro u hu hcon
        have hwu : veq w u = true := veq_trans hwv (veq_symm u v ▸ hcon)
        rw [hw u hu] at hwu
        exact absurd hwu (by simp)
      simp [List.countP_cons, hwv, hzero]
    · rcases List.mem_cons.1 hu0 with rfl | h1
      · exact absurd hveq hwv
      · simp [List.countP_cons, hwv, ih ht v u0 h1 hveq]

-- Properties of sortValues.

theorem insertSorted_perm (v : Value) (l : List Value) :
    (insertSorted v l).Perm (v :: l) := by
  induction l with
  | nil => exact List.Perm.refl _
  | cons u t ih =>
    simp only [insertSorted]
    by_cases hc : vle v u = true
    · rw [if_pos hc]
    · rw [if_neg hc]
      exact (List.Perm.cons u ih).trans (List.Perm.swap v u t)

theorem sortValues_perm (l : List Value) : (sortValues l).Perm l := by
  induction l with
  | nil => exact List.Perm.refl _
  | cons v t ih => exact (insertSorted_perm v (sortValues t)).trans (List.Perm.cons v ih)

theorem mem_sortValues {l : List Value} {x : Value} :
    x ∈ sortValues l ↔ x ∈ l :=
  (sortValues_perm l).mem_iff

theorem pairwise_insertSorted (v : Value) {l : List Value}
    (h : List.Pairwise (fun a b => vle a b = true) l) :
    List.Pairwise (fun a b => vle a b = true) (insertSorted v l) := by
  induction l with
  | nil => simp [insertSorted]
  | cons u t ih =>
    rcases List.pairwise_cons.1 h with ⟨hu, ht⟩
    simp only [insertSorted]
    by_cases hc : vle v u = true
    · rw [if_pos hc]
      refine List.Pairwise.cons ?_ h
      intro b hb
      rcases List.mem_cons.1 hb with rfl | hb2
      · exact hc
      · exact vle_trans hc (hu b hb2)
    · rw [if_neg hc]
      have hvu : vle u v = true := (vle_total v u).resolve_left hc
      refine List.Pairwise.cons ?_ (ih ht)
      intro b hb
      rcases List.mem_cons.1 ((insertSorted_perm v t).mem_iff.1 hb) with rfl | hb2
      · exact hvu
      · exact hu b hb2

theorem sortValues_sorted (l : List Value) :
    List.Pairwise (fun a b => vle a b = true) (sortValues l) := by
  induction l with
  | nil => simp [sortValues]
  | cons v t ih => exact pairwise_insertSorted v ih

theorem sortValues_pairwise_veq_false {l : List Value}
    (h : List.Pairwise (fun a b => veq a b = false) l) :
    List.Pairwise (fun a b => veq a b = false) (sortValues l) := by
  refine (List.Perm.pairwise_iff ?_ (sortValues_perm l)).2 h
  intro x y hxy
  rw [veq_symm]
  exact hxy

-- Generic list helper: a map that fixes every member is the identity.

theorem map_self_of_fixes {α : Type} (l : List α) (f : α → α)
    (h : ∀ x ∈ l, f x = x) : l.map f = l := by
  induction l with
  | nil => rfl
  | cons a t ih =>
    rw [List.map_cons, h a (List.mem_cons_self _ _),
      ih (fun x hx => h x (List.mem_cons_of_mem a hx))]

-- Cell-level lemmas about the data frame operations.

theorem getCellD_not_mem : ∀ (cols : List String) (r : List Value) (c : String),
    c ∉ cols → getCellD cols r c = .null := by
  intro cols
  induction cols with
  | nil => intro r c _; rfl
  | cons c0 t ih =>
    intro r c h
    have hne : c0 ≠ c := fun he => h (he ▸ List.mem_cons_self c0 t)
    rw [getCellD, if_neg hne]
    exact ih _ c (fun hm => h (List.mem_cons_of_mem c0 hm))

theorem getCellD_setRowAt_self : ∀ (cols : List String) (r : List Value)
    (c : String) (x : Value), c ∈ cols →
    getCellD cols (setRowAt cols r c x) c = x := by
  intro cols
  induction cols with
  | nil => intro r c x h; simp at h
  | cons c0 t ih =>
    intro r c x h
    by_cases hc : c0 = c
    · rw [setRowAt, if_pos hc, getCellD, if_pos hc]
      rfl
    · rw [setRowAt, if_neg hc, getCellD, if_neg hc]
      have hct : c ∈ t := by
        rcases List.mem_cons.1 h with h1 | h1
        · exact absurd h1.symm hc
        · exact h1
      simpa using ih (r.drop 1) c x hct

theorem getCellD_setRowAt_ne : ∀ (cols : List String) (r : List Value)
    (c : String) (x : Value) (c2 : String), c2 ≠ c →
    getCellD cols (setRowAt cols r c x) c2 = getCellD cols r c2 := by
  intro cols
  induction cols with
  | nil => intro r c x c2 _; rfl
  | cons c0 t ih =>
    intro r c x c2 hne
    by_cases hc : c0 = c
    · have hc2 : c0 ≠ c2 := fun he => hne (he.symm.trans hc)
      rw [setRowAt, if_pos hc, getCellD, if_neg hc2, getCellD, if_neg hc2]
      simp
    · rw [setRowAt, if_neg hc]
      by_cases hc2 : c0 = c2
      · rw [getCellD, if_pos hc2, getCellD, if_pos hc2]
        simp
      · rw [getCellD, if_neg hc2, getCellD, if_neg hc2]
        simpa using ih (r.drop 1) c x c2 hne

theorem setRowAt_length : ∀ (cols : List String) (r : List Value)
    (c : String) (x : Value), r.length = cols.length →
    (setRowAt cols r c x).length = r.length := by
  intro cols
  induction cols with
  | nil => intro r c x _; rfl
  | cons c0 t ih =>
    intro r c x h
    by_cases hc : c0 = c
    · rw [setRowAt, if_pos hc]
      simp only [List.length_cons, List.length_drop]
      simp only [List.length_cons] at h
      omega
    · rw [setRowAt, if_neg hc]
      have hlen2 : (r.drop 1).length = t.length := by
        simp only [List.length_drop]
        simp only [List.length_cons] at h
        omega
      simp only [List.length_cons, ih (r.drop 1) c x hlen2, List.length_drop]
      simp only [List.length_cons] at h
      omega

theorem setRowAt_self_id : ∀ (cols : List String) (r : List Value) (c : String),
    c ∈ cols → r.length = cols.length →
    setRowAt cols r c (getCellD cols r c) = r := by
  intro cols
  induction cols with
  | nil => intro r c h _; simp at h
  | cons c0 t ih =>
    intro r c h hlen
    cases r with
    | nil => simp at hlen
    | cons v r2 =>
      by_cases hc : c0 = c
      · rw [getCellD, if_pos hc, setRowAt, if_pos hc]
        rfl
      · rw [getCellD, if_neg hc, setRowAt, if_neg hc]
        have hct : c ∈ t := by
          rcases List.mem_cons.1 h with h1 | h1
          · exact absurd h1.symm hc
          · exact h1
        have hlen2 : r2.length = t.length := by
          simpa using hlen
        simp only [List.drop_one, List.tail_cons, List.headD_cons]
        rw [ih r2 c hct hlen2]

theorem getCellD_append_ne : ∀ (cols : List String) (r : List Value)
    (cnew : String) (x : Value) (c2 : String), c2 ≠ cnew →
    r.length = cols.length →
    getCellD (cols ++ [cnew]) (r ++ [x]) c2 = getCellD cols r c2 := by
  intro cols
  induction cols with
  | nil =>
    intro r cnew x c2 hne hlen
    have : r = [] := List.length_eq_zero.1 hlen
    subst this
    rw [getCellD]
    simp only [List.nil_append]
    rw [getCellD, if_neg (fun h => hne h.symm)]
    rfl
  | cons c0 t ih =>
    intro r cnew x c2 hne hlen
    cases r with
    | nil => simp at hlen
    | cons v r2 =>
      by_cases hc : c0 = c2
      · rw [List.cons_append, List.cons_append, getCellD, if_pos hc, getCellD, if_pos hc]
        rfl
      · rw [List.cons_append, List.cons_append, getCellD, if_neg hc, getCellD, if_neg hc]
        have hlen2 : r2.length = t.length := by simpa using hlen
        simpa using ih r2 cnew x c2 hne hlen2

theorem getCellD_append_last : ∀ (cols : List String) (r : List Value)
    (c : String) (x : Value), c ∉ cols → r.length = cols.length →
    getCellD (cols ++ [c]) (r ++ [x]) c = x := by
  intro cols
  induction cols with
  | nil =>
    intro r c x _ hlen
    have : r = [] := List.length_eq_zero.1 hlen
    subst this
    simp [getCellD]
  | cons c0 t ih =>
    intro r c x h hlen
    cases r with
    | nil => simp at hlen
    | cons v r2 =>
      have hne : c0 ≠ c := fun he => h (he ▸ List.mem_cons_self c0 t)
      rw [List.cons_append, List.cons_append, getCellD, if_neg hne]
      have hlen2 : r2.length = t.length := by simpa using hlen
      simpa using ih r2 c x (fun hm => h (List.mem_cons_of_mem c0 hm)) hlen2

theorem getCellD_zipFilter : ∀ (cols : List String) (r : List Value)
    (keep : String → Bool) (c : String), keep c = true → r.length = cols.length →
    getCellD (cols.filter keep)
      (((cols.zip r).filter (fun p => keep p.1)).map (fun p => p.2)) c
      = getCellD cols r c := by
  intro cols
  induction cols with
  | nil => intro r keep c _ _; rfl
  | cons c0 t ih =>
    intro r keep c hk hlen
    cases r with
    | nil => simp at hlen
    | cons v r2 =>
      have hlen2 : r2.length = t.length := by simpa using hlen
      by_cases hk0 : keep c0 = true
      · have hl : ((c0 :: t).zip (v :: r2)).filter (fun p => keep p.1)
            = (c0, v) :: (t.zip r2).filter (fun p => keep p.1) := by
          simp [List.zip_cons_cons, List.filter_cons, hk0]
        have hcf : (c0 :: t).filter keep = c0 :: t.filter keep := by
          simp [List.filter_cons, hk0]
        rw [hl, hcf, List.map_cons]
        by_cases hc : c0 = c
        · rw [getCellD, if_pos hc, getCellD, if_pos hc]
          rfl
        · have hrhs : getCellD (c0 :: t) (v :: r2) c = getCellD t r2 c := by
            rw [getCellD, if_neg hc]
            rfl
          rw [hrhs, getCellD, if_neg hc]
          exact ih r2 keep c hk hlen2
      · have hne : c0 ≠ c := by
          intro he
          rw [he, hk] at hk0
          exact hk0 rfl
        have hl : ((c0 :: t).zip (v :: r2)).filter (fun p => keep p.1)
            = (t.zip r2).filter (fun p => keep p.1) := by
          simp [List.zip_cons_cons, List.filter_cons, hk0]
        have hcf : (c0 :: t).filter keep = t.filter keep := by
          simp [List.filter_cons, hk0]
        have hrhs : getCellD (c0 :: t) (v :: r2) c = getCellD t r2 c := by
          rw [getCellD, if_neg hne]
          rfl
        rw [hl, hcf, hrhs]
        exact ih r2 keep c hk hlen2

theorem zipFilter_length : ∀ (cols : List String) (r : List Value)
    (keep : String → Bool), r.length = cols.length →
    (((cols.zip r).filter (fun p => keep p.1)).map (fun p => p.2)).length
      = (cols.filter keep).length := by
  intro cols
  induction cols with
  | nil => intro r keep _; rfl
  | cons c0 t ih =>
    intro r keep hlen
    cases r with
    | nil => simp at hlen
    | cons v r2 =>
      have hlen2 : r2.length = t.length := by simpa using hlen
      by_cases hk0 : keep c0 = true
      · have hl : ((c0 :: t).zip (v :: r2)).filter (fun p => keep p.1)
            = (c0, v) :: (t.zip r2).filter (fun p => keep p.1) := by
          simp [List.zip_cons_cons, List.filter_cons, hk0]
        have hcf : (c0 :: t).filter keep = c0 :: t.filter keep := by
          simp [List.filter_cons, hk0]
        rw [hl, hcf, List.map_cons, List.length_cons, List.length_cons,
          ih r2 keep hlen2]
      · have hl : ((c0 :: t).zip (v :: r2)).filter (fun p => keep p.1)
            = (t.zip r2).filter (fun p => keep p.1) := by
          simp [List.zip_cons_cons, List.filter_cons, hk0]
        have hcf : (c0 :: t).filter keep = t.filter keep := by
          simp [List.filter_cons, hk0]
        rw [hl, hcf]
        exact ih r2 keep hlen2

-- Well-formedness and shape preservation of the operations.

theorem filterCols_wf (keep : String → Bool) (df : DataFrame) (h : df.Wf) :
    (filterCols keep df).Wf := by
  refine ⟨h.1.filter keep, ?_⟩
  intro r hr
  rcases List.mem_map.1 hr with ⟨r0, hr0, rfl⟩
  exact zipFilter_length df.cols r0 keep (h.2 r0 hr0)

theorem setColByRow_wf (df : DataFrame) (c : String)
    (f : List String → List Value → Value) (h : df.Wf) :
    (setColByRow df c f).Wf := by
  unfold setColByRow
  by_cases hmem : c ∈ df.cols
  · rw [if_pos hmem]
    refine ⟨h.1, ?_⟩
    intro r hr
    rcases List.mem_map.1 hr with ⟨r0, hr0, rfl⟩
    rw [setRowAt_length df.cols r0 c _ (h.2 r0 hr0)]
    exact h.2 r0 hr0
  · rw [if_neg hmem]
    refine ⟨?_, ?_⟩
    · rw [List.nodup_append]
      refine ⟨h.1, List.nodup_singleton c, ?_⟩
      intro a ha hamem
      rcases List.mem_singleton.1 hamem with rfl
      exact hmem ha
    · intro r hr
      rcases List.mem_map.1 hr with ⟨r0, hr0, rfl⟩
      simp [h.2 r0 hr0]

theorem dropStats_wf (df : DataFrame) (h : df.Wf) : (dropStats df).Wf :=
  filterCols_wf keepCol df.copy h

theorem dropStats_rows_length (df : DataFrame) :
    (dropStats df).rows.length = df.rows.length := by
  simp [dropStats, filterCols, DataFrame.copy]

theorem setColByRow_rows_length (df : DataFrame) (c : String)
    (f : List String → List Value → Value) :
    (setColByRow df c f).rows.length = df.rows.length := by
  unfold setColByRow
  split_ifs <;> simp

theorem setColByRow_cols_mem (df : DataFrame) (c : String)
    (f : List String → List Value → Value) (c2 : String) :
    c2 ∈ (setColByRow df c f).cols ↔ (c2 ∈ df.cols ∨ c2 = c) := by
  unfold setColByRow
  split_ifs with hmem
  · exact ⟨Or.inl, fun h => h.elim id (fun he => he ▸ hmem)⟩
  · simp [List.mem_append]

theorem dropStats_cols_mem (df : DataFrame) (c2 : String) :
    c2 ∈ (dropStats df).cols ↔ (c2 ∈ df.cols ∧ keepCol c2 = true) := by
  simp [dropStats, filterCols, DataFrame.copy, List.mem_filter]

-- Cell tracking through one column assignment and through the drop step.

theorem setColByRow_cells (df : DataFrame) (c : String)
    (f : List String → List Value → Value) (hwf : df.Wf) (i : Nat)
    (r : List Value) (hg : df.rows.get? i = some r) :
    ∃ r2, (setColByRow df c f).rows.get? i = some r2 ∧
      getCellD (setColByRow df c f).cols r2 c = f df.cols r ∧
      ∀ c2, c2 ≠ c →
        getCellD (setColByRow df c f).cols r2 c2 = getCellD df.cols r c2 := by
  have hlen := hwf.2 r (List.get?_mem hg)
  unfold setColByRow
  by_cases hmem : c ∈ df.cols
  · rw [if_pos hmem]
    refine ⟨setRowAt df.cols r c (f df.cols r), ?_, ?_, ?_⟩
    · rw [List.get?_map, hg]; rfl
    · exact getCellD_setRowAt_self df.cols r c _ hmem
    · intro c2 hne
      exact getCellD_setRowAt_ne df.cols r c _ c2 hne
  · rw [if_neg hmem]
    refine ⟨r ++ [f df.cols r], ?_, ?_, ?_⟩
    · rw [List.get?_map, hg]; rfl
    · exact getCellD_append_last df.cols r c _ hmem hlen
    · intro c2 hne
      exact getCellD_append_ne df.cols r c _ c2 hne hlen

theorem dropStats_cells (df : DataFrame) (hwf : df.Wf) (i : Nat)
    (r : List Value) (hg : df.rows.get? i = some r) :
    ∃ r1, (dropStats df).rows.get? i = some r1 ∧
      ∀ c2, keepCol c2 = true →
        getCellD (dropStats df).cols r1 c2 = getCellD df.cols r c2 := by
  have hlen := hwf.2 r (List.get?_mem hg)
  refine ⟨((df.cols.zip r).filter (fun p => keepCol p.1)).map (fun p => p.2),
    ?_, ?_⟩
  · show (df.rows.map _).get? i = _
    rw [List.get?_map, hg]; rfl
  · intro c2 hk
    exact getCellD_zipFilter df.cols r keepCol c2 hk hlen

-- Decomposition of a successful run of preprocess_data.

theorem preprocess_some_parts {df out : DataFrame}
    (hp : preprocess_data df = some out) :
    "AGE_ABOVE65" ∈ (dropStats df).cols ∧
    "AGE_PERCENTIL" ∈ (addAgeGroup (dropStats df)).cols ∧
    (∀ r ∈ (addAgeGroup (dropStats df)).rows,
      (ageOfRow (addAgeGroup (dropStats df)).cols r).isSome = true) ∧
    out = addAge (addAgeGroup (dropStats df)) := by
  simp only [preprocess_data] at hp
  split_ifs at hp with h1 h2 h3
  · exact ⟨h1, h2, fun r hr => List.all_eq_true.1 h3 r hr,
      (Option.some.inj hp).symm⟩

theorem preprocess_cols_mem {df out : DataFrame}
    (hp : preprocess_data df = some out) (c2 : String) :
    c2 ∈ out.cols ↔
      ((c2 ∈ df.cols ∧ keepCol c2 = true) ∨ c2 = "age_group" ∨ c2 = "age") := by
  obtain ⟨h1, h2, h3, rfl⟩ := preprocess_some_parts hp
  rw [addAge, setColByRow_cols_mem, addAgeGroup, setColByRow_cols_mem,
    dropStats_cols_mem]
  tauto

theorem preprocess_rows_length {df out : DataFrame}
    (hp : preprocess_data df = some out) :
    out.rows.length = df.rows.length := by
  obtain ⟨h1, h2, h3, rfl⟩ := preprocess_some_parts hp
  rw [addAge, setColByRow_rows_length, addAgeGroup, setColByRow_rows_length,
    dropStats_rows_length]

theorem preprocess_cells {df out : DataFrame} (hwf : df.Wf)
    (hp : preprocess_data df = some out) :
    ∀ i rIn, df.rows.get? i = some rIn →
      ∃ r, out.rows.get? i = some r ∧
        (∀ c2, keepCol c2 = true → c2 ≠ "age_group" → c2 ≠ "age" →
            getCellD out.cols r c2 = getCellD df.cols rIn c2) ∧
        getCellD out.cols r "age_group"
          = age_groupMap (getCellD df.cols rIn "AGE_ABOVE65") ∧
        getCellD out.cols r "age"
          = (ageOfValue (getCellD df.cols rIn "AGE_PERCENTIL")).getD .null ∧
        (ageOfValue (getCellD df.cols rIn "AGE_PERCENTIL")).isSome = true := by
  obtain ⟨h1, h2, h3, rfl⟩ := preprocess_some_parts hp
  intro i rIn hg
  have hwf1 : (dropStats df).Wf := dropStats_wf df hwf
  have hwf2 : (addAgeGroup (dropStats df)).Wf := setColByRow_wf _ _ _ hwf1
  obtain ⟨r1, hg1, hpres1⟩ := dropStats_cells df hwf i rIn hg
  obtain ⟨r2, hg2, hset2, hpres2⟩ :=
    setColByRow_cells (dropStats df) "age_group"
      (fun cols r => age_groupMap (getCellD cols r "AGE_ABOVE65")) hwf1 i r1 hg1
  obtain ⟨r3, hg3, hset3, hpres3⟩ :=
    setColByRow_cells (addAgeGroup (dropStats df)) "age"
      (fun cols r => (ageOfRow cols r).getD .null) hwf2 i r2 hg2
  have efold2 : setColByRow (dropStats df) "age_group"
      (fun cols r => age_groupMap (getCellD cols r "AGE_ABOVE65"))
      = addAgeGroup (dropStats df) := rfl
  rw [efold2] at hg2 hset2 hpres2
  have efold3 : setColByRow (addAgeGroup (dropStats df)) "age"
      (fun cols r => (ageOfRow cols r).getD .null)
      = addAge (addAgeGroup (dropStats df)) := rfl
  rw [efold3] at hg3 hset3 hpres3
  have hcellP : getCellD (addAgeGroup (dropStats df)).cols r2 "AGE_PERCENTIL"
      = getCellD df.cols rIn "AGE_PERCENTIL" := by
    rw [hpres2 "AGE_PERCENTIL" (by decide), hpres1 "AGE_PERCENTIL" (by decide)]
  refine ⟨r3, hg3, ?_, ?_, ?_, ?_⟩
  · intro c2 hk hne1 hne2
    rw [hpres3 c2 hne2, hpres2 c2 hne1, hpres1 c2 hk]
  · rw [hpres3 "age_group" (by decide), hset2,
      hpres1 "AGE_ABOVE65" (by decide)]
  · rw [hset3]
    show (ageOfRow (addAgeGroup (dropStats df)).cols r2).getD .null = _
    rw [ageOfRow, hcellP]
  · have := h3 r2 (List.get?_mem hg2)
    rw [ageOfRow, hcellP] at this
    exact this

-- Structure of the aggregation output.

theorem aggregate_some_elim {df out : DataFrame}
    (hp : aggregate_patient_level df = some out) :
    out = ⟨aggRequired, (patientKeys df).map (aggRow df)⟩ := by
  unfold aggregate_patient_level at hp
  split_ifs at hp
  exact (Option.some.inj hp).symm

theorem aggRow_key (df : DataFrame) (k : Value) :
    getCellD aggRequired (aggRow df k) "PATIENT_VISIT_IDENTIFIER" = k := rfl

theorem aggRow_icu (df : DataFrame) (k : Value) :
    getCellD aggRequired (aggRow df k) "ICU"
      = vmax ((groupRows df k).map (fun r => getCellD df.cols r "ICU")) := rfl

theorem patientKeys_sub {df : DataFrame} {k : Value} (hk : k ∈ patientKeys df) :
    k ∈ df.colD "PATIENT_VISIT_IDENTIFIER" ∧ k ≠ Value.null := by
  have h1 := mem_dedupBy (mem_sortValues.1 hk)
  rcases List.mem_filter.1 h1 with ⟨hm, hnn⟩
  refine ⟨hm, ?_⟩
  intro he
  rw [he] at hnn
  simp at hnn

theorem groupRows_self_mem {df : DataFrame} {k : Value}
    (hk : k ∈ patientKeys df) : groupRows df k ≠ [] := by
  obtain ⟨hm, hnn⟩ := patientKeys_sub hk
  rcases List.mem_map.1 hm with ⟨r, hr, hcell⟩
  intro hemp
  have : r ∈ groupRows df k := by
    rw [groupRows]
    exact List.mem_filter.2 ⟨hr, by rw [hcell]; exact veq_refl hnn⟩
  rw [hemp] at this
  simp at this

-- Failure of a crosstab column lookup when no column value equals the label.

theorem crosstabColumn_error {rv cv : List Value} {c : Value}
    (h : ∀ v ∈ cv, veq v c = false) :
    crosstabColumn rv cv c = .error "KeyError" := by
  unfold crosstabColumn
  cases hf : (crosstabColLabels rv cv).find? (fun u => veq u c) with
  | none => rfl
  | some u =>
    exfalso
    have hu := List.find?_some hf
    have humem := List.mem_of_find?_eq_some hf
    have hucv : u ∈ cv := by
      have h1 := mem_dedupBy (mem_sortValues.1 humem)
      rcases List.mem_map.1 h1 with ⟨p, hp, hpe⟩
      have hpz : p ∈ rv.zip cv := (List.mem_filter.1 hp).1
      have := (List.mem_zip (a := p.1) (b := p.2) (by simpa using hpz)).2
      rw [hpe] at this
      exact this
    rw [h u hucv] at hu
    exact absurd hu (by simp)

/-!
Claim theorems.  Concrete tables used by the witnesses follow.
-/

/-- Cleaned table of the end-to-end scenario: patient A (identifier 1) with
two window rows, ICU 0 then 1, and patient B (identifier 2) with one
window row, ICU 0. -/
def dfAB : DataFrame :=
  ⟨["PATIENT_VISIT_IDENTIFIER", "ICU", "age_group", "age", "WINDOW"],
   [[.int 1, .int 0, .str "+65", .flt 6070 0, .str "0-2"],
    [.int 1, .int 1, .str "+65", .flt 6070 0, .str "2-4"],
    [.int 2, .int 0, .str "<65", .flt 10 0, .str "0-2"]]⟩

/-- Expected patient-level aggregation of dfAB: exactly two rows, A mapped
to ICU 1 and B mapped to ICU 0. -/
def aggAB : DataFrame :=
  ⟨aggRequired,
   [[.int 1, .int 1, .str "+65", .flt 6070 0],
    [.int 2, .int 0, .str "<65", .flt 10 0]]⟩

/-- C1: for a cleaned table whose ICU values are 0/1, the patient-level ICU
value equals 1 exactly when some row of that patient has ICU equal to 1;
and on the two-patient scenario table the aggregation returns exactly the
two expected rows, A with ICU 1 and B with ICU 0. -/
theorem C1_agg_icu_iff :
    (∀ (df out : DataFrame),
      (∀ v ∈ df.colD "ICU", v = Value.int 0 ∨ v = Value.int 1) →
      aggregate_patient_level df = some out →
      ∀ row ∈ out.rows,
        (getCellD out.cols row "ICU" = Value.int 1 ↔
          ∃ r ∈ df.rows,
            veq (getCellD df.cols r "PATIENT_VISIT_IDENTIFIER")
                (getCellD out.cols row "PATIENT_VISIT_IDENTIFIER") = true ∧
            getCellD df.cols r "ICU" = Value.int 1)) ∧
    aggregate_patient_level dfAB = some aggAB := by
  constructor
  · intro df out hbin hp row hrow
    obtain rfl := aggregate_some_elim hp
    dsimp only at hrow ⊢
    rcases List.mem_map.1 hrow with ⟨k, hk, rfl⟩
    rw [aggRow_key, aggRow_icu]
    have hgne : groupRows df k ≠ [] := groupRows_self_mem hk
    have hmapne : (groupRows df k).map (fun r => getCellD df.cols r "ICU") ≠ [] := by
      simpa using hgne
    have hball : ∀ v ∈ (groupRows df k).map (fun r => getCellD df.cols r "ICU"),
        v = Value.int 0 ∨ v = Value.int 1 := by
      intro v hv
      rcases List.mem_map.1 hv with ⟨r, hr, rfl⟩
      exact hbin _ (List.mem_map.2 ⟨r, (List.mem_filter.1 hr).1, rfl⟩)
    rw [vmax_binary hmapne hball]
    constructor
    · intro hmem
      rcases List.mem_map.1 hmem with ⟨r, hrg, hcell⟩
      rcases List.mem_filter.1 hrg with ⟨hrdf, hveq⟩
      exact ⟨r, hrdf, hveq, hcell⟩
    · rintro ⟨r, hrdf, hveq, hcell⟩
      exact List.mem_map.2 ⟨r, List.mem_filter.2 ⟨hrdf, hveq⟩, hcell⟩
  · decide

/-- Witness for C1 at the concrete scenario table. -/
theorem C1_agg_icu_iff_witness :
    (∀ v ∈ dfAB.colD "ICU", v = Value.int 0 ∨ v = Value.int 1) ∧
    (aggregate_patient_level dfAB = some aggAB) ∧
    ∀ row ∈ aggAB.rows,
      (getCellD aggAB.cols row "ICU" = Value.int 1 ↔
        ∃ r ∈ dfAB.rows,
          veq (getCellD dfAB.cols r "PATIENT_VISIT_IDENTIFIER")
              (getCellD aggAB.cols row "PATIENT_VISIT_IDENTIFIER") = true ∧
          getCellD dfAB.cols r "ICU" = Value.int 1) :=
  ⟨by decide, by decide,
   C1_agg_icu_iff.1 dfAB aggAB (by decide) (by decide)⟩

/-- C2: the aggregation output has one row per distinct non-missing patient
identifier of the input (pandas drops missing group keys, matching the
nunique count of distinct values), and each such identifier keys exactly
one output row. -/
theorem C2_agg_one_row_per_patient :
    ∀ (df out : DataFrame), aggregate_patient_level df = some out →
      out.rows.length
        = (dedupBy ((df.colD "PATIENT_VISIT_IDENTIFIER").filter
            (fun v => !decide (v = Value.null)))).length ∧
      ∀ k ∈ df.colD "PATIENT_VISIT_IDENTIFIER", k ≠ Value.null →
        (out.rows.filter (fun row =>
          veq (getCellD out.cols row "PATIENT_VISIT_IDENTIFIER") k)).length
          = 1 := by
  intro df out hp
  obtain rfl := aggregate_some_elim hp
  constructor
  · dsimp only
    rw [List.length_map]
    exact (sortValues_perm _).length_eq
  · intro k hkcol hknn
    dsimp only
    rw [← List.countP_eq_length_filter, List.countP_map]
    have hfun : ((fun row =>
        veq (getCellD aggRequired row "PATIENT_VISIT_IDENTIFIER") k)
          ∘ (aggRow df)) = fun k2 => veq k2 k := by
      funext k2
      simp [Function.comp, aggRow_key]
    rw [hfun]
    simp only [patientKeys]
    rw [(sortValues_perm _).countP_eq]
    have hkf : k ∈ (df.colD "PATIENT_VISIT_IDENTIFIER").filter
        (fun v => !decide (v = Value.null)) :=
      List.mem_filter.2 ⟨hkcol, by simp [hknn]⟩
    obtain ⟨u, hu, huv⟩ := dedupBy_cover hkf hknn
    exact countP_veq_one _ (dedupBy_distinct _) k u hu huv

/-- Witness for C2 at the concrete scenario table. -/
theorem C2_agg_one_row_per_patient_witness :
    (aggregate_patient_level dfAB = some aggAB) ∧
    aggAB.rows.length
      = (dedupBy ((dfAB.colD "PATIENT_VISIT_IDENTIFIER").filter
          (fun v => !decide (v = Value.null)))).length :=
  ⟨by decide, (C2_agg_one_row_per_patient dfAB aggAB (by decide)).1⟩

/-- C10: the aggregation output lists one row per patient identifier in
ascending identifier order, whatever the input row order, because groupby
sorts its group keys by default. -/
theorem C10_agg_sorted_keys :
    ∀ (df out : DataFrame), aggregate_patient_level df = some out →
      List.Pairwise (fun a b => vle a b = true)
        (out.rows.map (fun row =>
          getCellD out.cols row "PATIENT_VISIT_IDENTIFIER")) := by
  intro df out hp
  obtain rfl := aggregate_some_elim hp
  dsimp only
  rw [List.map_map]
  have hfun : ((fun row => getCellD aggRequired row "PATIENT_VISIT_IDENTIFIER")
      ∘ aggRow df) = id := by
    funext k2
    simp [Function.comp, aggRow_key]
  rw [hfun, List.map_id]
  simp only [patientKeys]
  exact sortValues_sorted _

/-- Witness for C10: the scenario table arrives unsorted and the output
keys are sorted. -/
theorem C10_agg_sorted_keys_witness :
    (aggregate_patient_level dfAB = some aggAB) ∧
    List.Pairwise (fun a b => vle a b = true)
      (aggAB.rows.map (fun row =>
        getCellD aggAB.cols row "PATIENT_VISIT_IDENTIFIER")) :=
  ⟨by decide, C10_agg_sorted_keys dfAB aggAB (by decide)⟩

/-- C6: whenever the first, certificate-verified attempt of load_data fails
for any reason, the function makes exactly one more attempt with
verification disabled after suppressing the insecure-request warnings, and
returns the outcome of that second attempt unchanged; in particular when
every request fails, the result is a fatal error after exactly the two
attempts. -/
theorem C6_load_retry_behavior :
    ∀ (env : NetEnv),
      (∀ e1, attemptLoad env true = Except.error e1 →
        load_data env = ⟨attemptLoad env false, [true, false], true⟩) ∧
      ((∀ v : Bool, ∃ e, env.get v = Except.error e) →
        (∃ e, (load_data env).result = Except.error e) ∧
        (load_data env).attempts = [true, false] ∧
        (load_data env).warningsDisabled = true) := by
  intro env
  constructor
  · intro e1 h1
    unfold load_data
    rw [h1]
  · intro hfail
    obtain ⟨e1, he1⟩ := hfail true
    obtain ⟨e2, he2⟩ := hfail false
    have ha1 : attemptLoad env true = Except.error e1 := by
      unfold attemptLoad
      rw [he1]
      rfl
    have ha2 : attemptLoad env false = Except.error e2 := by
      unfold attemptLoad
      rw [he2]
      rfl
    unfold load_data
    rw [ha1]
    exact ⟨⟨e2, ha2⟩, rfl, rfl⟩

/-- Environment in which every request fails: an unreachable URL. -/
def unreachableEnv : NetEnv :=
  ⟨fun _ => .error "ConnectionError", fun _ => .error "ParseError"⟩

/-- Witness for C6 against the unreachable environment. -/
theorem C6_load_retry_behavior_witness :
    (∀ v : Bool, ∃ e, unreachableEnv.get v = Except.error e) ∧
    ((∃ e, (load_data unreachableEnv).result = Except.error e) ∧
      (load_data unreachableEnv).attempts = [true, false] ∧
      (load_data unreachableEnv).warningsDisabled = true) :=
  ⟨fun _ => ⟨"ConnectionError", rfl⟩,
   (C6_load_retry_behavior unreachableEnv).2 (fun _ => ⟨"ConnectionError", rfl⟩)⟩

/-- Well-formedness of a concrete data frame is checkable. -/
instance (df : DataFrame) : Decidable df.Wf :=
  inferInstanceAs
    (Decidable (df.cols.Nodup ∧ ∀ r ∈ df.rows, r.length = df.cols.length))

/-- Raw input table for the transformation witnesses: identifier, age
indicator, percentile band, one reserved statistical column, ICU and
window. -/
def dfRaw : DataFrame :=
  ⟨["PATIENT_VISIT_IDENTIFIER", "AGE_ABOVE65", "AGE_PERCENTIL",
    "ALBUMIN_MIN", "ICU", "WINDOW"],
   [[.int 1, .int 1, .str "60th-70th", .flt 35 1, .int 0, .str "0-2"],
    [.int 2, .int 0, .str "10th", .null, .int 0, .str "0-2"]]⟩

/-- First row of dfRaw. -/
def rowRaw0 : List Value :=
  [.int 1, .int 1, .str "60th-70th", .flt 35 1, .int 0, .str "0-2"]

/-- Cleaned output expected from preprocess_data on dfRaw. -/
def dfRawOut : DataFrame :=
  ⟨["PATIENT_VISIT_IDENTIFIER", "AGE_ABOVE65", "AGE_PERCENTIL",
    "ICU", "WINDOW", "age_group", "age"],
   [[.int 1, .int 1, .str "60th-70th", .int 0, .str "0-2", .str "+65",
     .flt 6070 0],
    [.int 2, .int 0, .str "10th", .int 0, .str "0-2", .str "<65",
     .flt 10 0]]⟩

/-- C4: the cleaned table has no column whose name ends in one of the four
reserved suffixes; the witness input holds no such column at all, showing
their absence is not an error. -/
theorem C4_no_reserved_suffix_columns :
    ∀ (df out : DataFrame), preprocess_data df = some out →
      ∀ c ∈ out.cols,
        pyEndsWith c "_DIFF" = false ∧ pyEndsWith c "_MIN" = false ∧
        pyEndsWith c "_MAX" = false ∧ pyEndsWith c "_MEDIAN" = false := by
  intro df out hp c hc
  rcases (preprocess_cols_mem hp c).1 hc with ⟨hmem, hk⟩ | rfl | rfl
  · simp only [keepCol, remove_patterns, List.any_cons, List.any_nil,
      Bool.or_false, Bool.not_eq_true', Bool.or_eq_false_iff] at hk
    exact ⟨hk.1, hk.2.1, hk.2.2.1, hk.2.2.2⟩
  · exact ⟨by decide, by decide, by decide, by decide⟩
  · exact ⟨by decide, by decide, by decide, by decide⟩

/-- Clean table without any reserved-suffix column, for the C4 witness. -/
def dfNoStats : DataFrame :=
  ⟨["PATIENT_VISIT_IDENTIFIER", "AGE_ABOVE65", "AGE_PERCENTIL", "ICU"],
   [[.int 1, .int 1, .str "Above 90", .int 1]]⟩

/-- Witness for C4: preprocessing succeeds on a table with no
reserved-suffix column, and the output columns carry none of the four
suffixes. -/
theorem C4_no_reserved_suffix_columns_witness :
    (preprocess_data dfNoStats
      = some ⟨["PATIENT_VISIT_IDENTIFIER", "AGE_ABOVE65", "AGE_PERCENTIL",
               "ICU", "age_group", "age"],
              [[.int 1, .int 1, .str "Above 90", .int 1, .str "+65",
                .flt 90 0]]⟩) ∧
    ∀ c ∈ (⟨["PATIENT_VISIT_IDENTIFIER", "AGE_ABOVE65", "AGE_PERCENTIL",
             "ICU", "age_group", "age"],
            [[.int 1, .int 1, .str "Above 90", .int 1, .str "+65",
              .flt 90 0]]⟩ : DataFrame).cols,
      pyEndsWith c "_DIFF" = false ∧ pyEndsWith c "_MIN" = false ∧
      pyEndsWith c "_MAX" = false ∧ pyEndsWith c "_MEDIAN" = false :=
  ⟨by decide, C4_no_reserved_suffix_columns dfNoStats _ (by decide)⟩

/-- C3: for every row, the derived age cell is exactly the float parsed
from the digit-and-dot stripping of the textual AGE_PERCENTIL value (the
parse must succeed for preprocess_data to return); and the band
60th-70th parses to the concatenated number 6070.0. -/
theorem C3_age_from_percentil :
    (∀ (df out : DataFrame), df.Wf → preprocess_data df = some out →
      ∀ i rIn, df.rows.get? i = some rIn →
        ∃ r, out.rows.get? i = some r ∧
          ∃ a, parseStripped (stripNonDigits
                (pyStr (getCellD df.cols rIn "AGE_PERCENTIL"))) = some a ∧
            getCellD out.cols r "age" = a) ∧
    parseStripped (stripNonDigits (pyStr (Value.str "60th-70th")))
      = some (Value.flt 6070 0) := by
  constructor
  · intro df out hwf hp i rIn hg
    obtain ⟨r, hr, _, _, hage, hsome⟩ := preprocess_cells hwf hp i rIn hg
    obtain ⟨a, ha⟩ := Option.isSome_iff_exists.1 hsome
    refine ⟨r, hr, a, ha, ?_⟩
    rw [hage, ha]
    rfl
  · decide

/-- Witness for C3 at the first row of the raw witness table. -/
theorem C3_age_from_percentil_witness :
    dfRaw.Wf ∧ preprocess_data dfRaw = some dfRawOut ∧
    dfRaw.rows.get? 0 = some rowRaw0 ∧
    (∃ r, dfRawOut.rows.get? 0 = some r ∧
      ∃ a, parseStripped (stripNonDigits
            (pyStr (getCellD dfRaw.cols rowRaw0 "AGE_PERCENTIL"))) = some a ∧
        getCellD dfRawOut.cols r "age" = a) :=
  ⟨by decide, by decide, by rfl,
   C3_age_from_percentil.1 dfRaw dfRawOut (by decide) (by decide) 0 rowRaw0
     (by rfl)⟩

/-- C5: for every row, the derived age_group cell is "+65" when the
AGE_ABOVE65 value equals 1, "<65" when it equals 0, and missing when it
equals neither (equality as Python compares, so 1.0 counts as 1). -/
theorem C5_age_group_from_above65 :
    ∀ (df out : DataFrame), df.Wf → preprocess_data df = some out →
      ∀ i rIn, df.rows.get? i = some rIn →
        ∃ r, out.rows.get? i = some r ∧
          ((veq (getCellD df.cols rIn "AGE_ABOVE65") (Value.int 1) = true →
              getCellD out.cols r "age_group" = Value.str "+65") ∧
           (veq (getCellD df.cols rIn "AGE_ABOVE65") (Value.int 0) = true →
              getCellD out.cols r "age_group" = Value.str "<65") ∧
           (veq (getCellD df.cols rIn "AGE_ABOVE65") (Value.int 1) = false →
              veq (getCellD df.cols rIn "AGE_ABOVE65") (Value.int 0) = false →
              getCellD out.cols r "age_group" = Value.null)) := by
  intro df out hwf hp i rIn hg
  obtain ⟨r, hr, _, hag, _, _⟩ := preprocess_cells hwf hp i rIn hg
  refine ⟨r, hr, ?_, ?_, ?_⟩
  · intro h1
    rw [hag, age_groupMap, if_pos h1]
  · intro h0
    have hne1 : veq (getCellD df.cols rIn "AGE_ABOVE65") (Value.int 1)
        = false := by
      by_contra hcon
      rw [Bool.not_eq_false] at hcon
      rw [veq_symm] at h0
      have h01 := veq_trans h0 hcon
      exact absurd h01 (by decide)
    rw [hag, age_groupMap, if_neg (by simp [hne1]), if_pos h0]
  · intro h1 h0
    rw [hag, age_groupMap, if_neg (by simp [h1]), if_neg (by simp [h0])]

/-- Witness for C5 at the first row of the raw witness table. -/
theorem C5_age_group_from_above65_witness :
    dfRaw.Wf ∧ preprocess_data dfRaw = some dfRawOut ∧
    dfRaw.rows.get? 0 = some rowRaw0 ∧
    (∃ r, dfRawOut.rows.get? 0 = some r ∧
      ((veq (getCellD dfRaw.cols rowRaw0 "AGE_ABOVE65") (Value.int 1) = true →
          getCellD dfRawOut.cols r "age_group" = Value.str "+65") ∧
       (veq (getCellD dfRaw.cols rowRaw0 "AGE_ABOVE65") (Value.int 0) = true →
          getCellD dfRawOut.cols r "age_group" = Value.str "<65") ∧
       (veq (getCellD dfRaw.cols rowRaw0 "AGE_ABOVE65") (Value.int 1) = false →
          veq (getCellD dfRaw.cols rowRaw0 "AGE_ABOVE65") (Value.int 0) = false →
          getCellD dfRawOut.cols r "age_group" = Value.null))) :=
  ⟨by decide, by decide, by rfl,
   C5_age_group_from_above65 dfRaw dfRawOut (by decide) (by decide) 0 rowRaw0
     (by rfl)⟩

/-- C7: preprocess_data keeps the row count and the positional row order of
its input and operates on an explicit copy (the copy equals the input and
the input value itself is untouched by the pure transformation); every
kept original column holds its input value at the same row index. -/
theorem C7_preprocess_preserves_shape :
    ∀ (df out : DataFrame), df.Wf → preprocess_data df = some out →
      out.rows.length = df.rows.length ∧
      df.copy = df ∧
      ∀ i rIn, df.rows.get? i = some rIn →
        ∃ r, out.rows.get? i = some r ∧
          ∀ c2, keepCol c2 = true → c2 ≠ "age_group" → c2 ≠ "age" →
            getCellD out.cols r c2 = getCellD df.cols rIn c2 := by
  intro df out hwf hp
  refine ⟨preprocess_rows_length hp, rfl, ?_⟩
  intro i rIn hg
  obtain ⟨r, hr, hpres, _, _, _⟩ := preprocess_cells hwf hp i rIn hg
  exact ⟨r, hr, hpres⟩

/-- Witness for C7 on the raw witness table. -/
theorem C7_preprocess_preserves_shape_witness :
    dfRaw.Wf ∧ preprocess_data dfRaw = some dfRawOut ∧
    dfRawOut.rows.length = dfRaw.rows.length :=
  ⟨by decide, by decide,
   (C7_preprocess_preserves_shape dfRaw dfRawOut (by decide) (by decide)).1⟩

-- Identity lemmas used for idempotence of the transformation.

theorem zipFilter_id : ∀ (cols : List String) (r : List Value)
    (keep : String → Bool), (∀ c ∈ cols, keep c = true) →
    r.length = cols.length →
    ((cols.zip r).filter (fun p => keep p.1)).map (fun p => p.2) = r := by
  intro cols
  induction cols with
  | nil =>
    intro r keep _ hlen
    rw [List.length_eq_zero.1 hlen]
    rfl
  | cons c0 t ih =>
    intro r keep h hlen
    cases r with
    | nil => simp at hlen
    | cons v r2 =>
      have hk0 : keep c0 = true := h c0 (List.mem_cons_self _ _)
      have hl : ((c0 :: t).zip (v :: r2)).filter (fun p => keep p.1)
          = (c0, v) :: (t.zip r2).filter (fun p => keep p.1) := by
        simp [List.zip_cons_cons, List.filter_cons, hk0]
      rw [hl, List.map_cons]
      rw [ih r2 keep (fun c hc => h c (List.mem_cons_of_mem c0 hc))
        (by simpa using hlen)]

theorem filterCols_id (keep : String → Bool) (df : DataFrame)
    (h : ∀ c ∈ df.cols, keep c = true) (hwf : df.Wf) :
    filterCols keep df = df := by
  cases df with
  | mk cols rows =>
    simp only [filterCols, DataFrame.mk.injEq]
    constructor
    · exact List.filter_eq_self.2 h
    · apply map_self_of_fixes
      intro r hr
      exact zipFilter_id cols r keep h (hwf.2 r hr)

theorem setColByRow_id (df : DataFrame) (c : String)
    (f : List String → List Value → Value) (hmem : c ∈ df.cols)
    (hwf : df.Wf) (h : ∀ r ∈ df.rows, f df.cols r = getCellD df.cols r c) :
    setColByRow df c f = df := by
  unfold setColByRow
  rw [if_pos hmem]
  cases df with
  | mk cols rows =>
    simp only [DataFrame.mk.injEq, true_and]
    apply map_self_of_fixes
    intro r hr
    rw [h r hr]
    exact setRowAt_self_id cols r c hmem (hwf.2 r hr)

theorem preprocess_wf {df out : DataFrame} (hwf : df.Wf)
    (hp : preprocess_data df = some out) : out.Wf := by
  obtain ⟨_, _, _, rfl⟩ := preprocess_some_parts hp
  exact setColByRow_wf _ _ _ (setColByRow_wf _ _ _ (dropStats_wf df hwf))

/-- C8: a second run of preprocess_data on its own output does not raise,
does not duplicate the derived columns (age_group and age already exist and
are overwritten in place with the same values), and returns the output
unchanged. -/
theorem C8_preprocess_idempotent :
    ∀ (df out : DataFrame), df.Wf → preprocess_data df = some out →
      preprocess_data out = some out := by
  intro df out hwf hp
  have hwfo : out.Wf := preprocess_wf hwf hp
  have hlen := preprocess_rows_length hp
  have hrowfacts : ∀ r ∈ out.rows, ∃ rIn,
      (∀ c2, keepCol c2 = true → c2 ≠ "age_group" → c2 ≠ "age" →
        getCellD out.cols r c2 = getCellD df.cols rIn c2) ∧
      getCellD out.cols r "age_group"
        = age_groupMap (getCellD df.cols rIn "AGE_ABOVE65") ∧
      getCellD out.cols r "age"
        = (ageOfValue (getCellD df.cols rIn "AGE_PERCENTIL")).getD .null ∧
      (ageOfValue (getCellD df.cols rIn "AGE_PERCENTIL")).isSome = true := by
    intro r hr
    obtain ⟨i, hi⟩ := List.mem_iff_get?.1 hr
    have hilt : i < df.rows.length := by
      rw [← hlen]
      by_contra hcon
      rw [not_lt] at hcon
      rw [(List.get?_eq_none).2 hcon] at hi
      exact Option.noConfusion hi
    obtain ⟨rIn, hgIn⟩ : ∃ rIn, df.rows.get? i = some rIn := by
      cases hq : df.rows.get? i with
      | none =>
        rw [List.get?_eq_none] at hq
        omega
      | some x => exact ⟨x, rfl⟩
    obtain ⟨r2, hr2, hpres, hag, hage, hsome⟩ :=
      preprocess_cells hwf hp i rIn hgIn
    rw [hi] at hr2
    obtain rfl := Option.some.inj hr2
    exact ⟨rIn, hpres, hag, hage, hsome⟩
  have hallkeep : ∀ c ∈ out.cols, keepCol c = true := by
    intro c hc
    rcases (preprocess_cols_mem hp c).1 hc with ⟨_, hk⟩ | rfl | rfl
    · exact hk
    · decide
    · decide
  have hAmem : "AGE_ABOVE65" ∈ out.cols := by
    obtain ⟨h1, _, _, _⟩ := preprocess_some_parts hp
    rcases (dropStats_cols_mem df _).1 h1 with ⟨hm, hk⟩
    exact (preprocess_cols_mem hp _).2 (Or.inl ⟨hm, hk⟩)
  have hPmem : "AGE_PERCENTIL" ∈ out.cols := by
    obtain ⟨_, h2, _, _⟩ := preprocess_some_parts hp
    rcases (setColByRow_cols_mem _ _ _ _).1 h2 with hm | he
    · rcases (dropStats_cols_mem df _).1 hm with ⟨hm2, hk⟩
      exact (preprocess_cols_mem hp _).2 (Or.inl ⟨hm2, hk⟩)
    · exact absurd he (by decide)
  have hGmem : "age_group" ∈ out.cols :=
    (preprocess_cols_mem hp _).2 (Or.inr (Or.inl rfl))
  have hagemem : "age" ∈ out.cols :=
    (preprocess_cols_mem hp _).2 (Or.inr (Or.inr rfl))
  have e1 : dropStats out = out := by
    show filterCols keepCol out.copy = out
    exact filterCols_id keepCol out hallkeep hwfo
  have e2 : addAgeGroup out = out := by
    show setColByRow out "age_group"
      (fun cols r => age_groupMap (getCellD cols r "AGE_ABOVE65")) = out
    apply setColByRow_id out "age_group" _ hGmem hwfo
    intro r hr
    obtain ⟨rIn, hpres, hag, _, _⟩ := hrowfacts r hr
    rw [hag]
    show age_groupMap (getCellD out.cols r "AGE_ABOVE65") = _
    rw [hpres "AGE_ABOVE65" (by decide) (by decide) (by decide)]
  have e3 : addAge out = out := by
    show setColByRow out "age"
      (fun cols r => (ageOfRow cols r).getD .null) = out
    apply setColByRow_id out "age" _ hagemem hwfo
    intro r hr
    obtain ⟨rIn, hpres, _, hage, _⟩ := hrowfacts r hr
    rw [hage]
    show (ageOfRow out.cols r).getD .null = _
    rw [ageOfRow, hpres "AGE_PERCENTIL" (by decide) (by decide) (by decide)]
  have hall : out.rows.all (fun r => (ageOfRow out.cols r).isSome) = true := by
    rw [List.all_eq_true]
    intro r hr
    obtain ⟨rIn, hpres, _, _, hsome⟩ := hrowfacts r hr
    rw [ageOfRow, hpres "AGE_PERCENTIL" (by decide) (by decide) (by decide)]
    exact hsome
  simp only [preprocess_data, e1]
  rw [if_pos hAmem]
  simp only [e2]
  rw [if_pos hPmem, if_pos hall, e3]

/-- Witness for C8 on the raw witness table. -/
theorem C8_preprocess_idempotent_witness :
    dfRaw.Wf ∧ preprocess_data dfRaw = some dfRawOut ∧
    preprocess_data dfRawOut = some dfRawOut :=
  ⟨by decide, by decide,
   C8_preprocess_idempotent dfRaw dfRawOut (by decide) (by decide)⟩

/-- C9: when the cleaned table has no row with ICU equal to 1, or the
derived patient-level table has no patient with ICU equal to 0, the
dashboard raises a key-lookup error before anything is rendered: the first
cross-tabulation is indexed at the literal labels 0 and 1 without checking
that both values occur. -/
theorem C9_dashboard_keyerror :
    ∀ (df pdf : DataFrame), aggregate_patient_level df = some pdf →
      ((∀ v ∈ df.colD "ICU", veq v (Value.int 1) = false) ∨
       (∀ v ∈ pdf.colD "ICU", veq v (Value.int 0) = false)) →
      ∃ e, plot_dashboard df = Except.error e := by
  intro df pdf hp hdisj
  have hpdf1 : (∀ v ∈ df.colD "ICU", veq v (Value.int 1) = false) →
      ∀ v ∈ pdf.colD "ICU", veq v (Value.int 1) = false := by
    intro h v hv
    obtain rfl := aggregate_some_elim hp
    simp only [DataFrame.colD] at hv
    rcases List.mem_map.1 hv with ⟨row, hrow, rfl⟩
    rcases List.mem_map.1 hrow with ⟨k, hk, rfl⟩
    rw [aggRow_icu]
    by_cases hne : ((groupRows df k).map (fun r => getCellD df.cols r "ICU"))
        = []
    · rw [hne]
      decide
    · have hmem := vmax_mem hne
      rcases List.mem_map.1 hmem with ⟨r, hrg, hcell⟩
      rw [← hcell]
      exact h _ (List.mem_map.2 ⟨r, (List.mem_filter.1 hrg).1, rfl⟩)
  rcases hdisj with h1 | h0
  · have hno1 := hpdf1 h1
    cases hcc0 : crosstabColumn (pdf.colD "age_group") (pdf.colD "ICU")
        (Value.int 0) with
    | error e =>
      exact ⟨e, by simp only [plot_dashboard, hp, hcc0]⟩
    | ok p1 =>
      have hcc1 : crosstabColumn (pdf.colD "age_group") (pdf.colD "ICU")
          (Value.int 1) = .error "KeyError" := crosstabColumn_error hno1
      exact ⟨"KeyError", by simp only [plot_dashboard, hp, hcc0, hcc1]⟩
  · have hcc0 : crosstabColumn (pdf.colD "age_group") (pdf.colD "ICU")
        (Value.int 0) = .error "KeyError" := crosstabColumn_error h0
    exact ⟨"KeyError", by simp only [plot_dashboard, hp, hcc0]⟩

/-- Cleaned table in which no observation ever has ICU equal to 1. -/
def dfNoICU : DataFrame :=
  ⟨["PATIENT_VISIT_IDENTIFIER", "ICU", "age_group", "age", "WINDOW"],
   [[.int 1, .int 0, .str "+65", .flt 6070 0, .str "0-2"]]⟩

/-- Patient-level aggregation of dfNoICU. -/
def pdfNoICU : DataFrame :=
  ⟨aggRequired, [[.int 1, .int 0, .str "+65", .flt 6070 0]]⟩

/-- Witness for C9: on a table with no ICU-positive row the dashboard
raises before rendering. -/
theorem C9_dashboard_keyerror_witness :
    (aggregate_patient_level dfNoICU = some pdfNoICU) ∧
    (∀ v ∈ dfNoICU.colD "ICU", veq v (Value.int 1) = false) ∧
    ∃ e, plot_dashboard dfNoICU = Except.error e :=
  ⟨by decide, by decide,
   C9_dashboard_keyerror dfNoICU pdfNoICU (by decide)
     (Or.inl (by decide))⟩
